import Mathlib

/-!
Verification of the Kanban board state container
(`src/contexts/KanbanContext.tsx`) and the drag-and-drop geometry of
`src/components/kanban/KanbanColumn.tsx`.

Modelling conventions:
* JavaScript strings are `String`; the TypeScript union types
  `TaskStatus` / `TaskPriority` are compile-time-only, so statuses and
  priorities are plain strings here.
* `Date` values are modelled as `Int` millisecond timestamps.
* The asynchronous Supabase calls are modelled by passing the outcome of
  the remote call (`ok : Bool`, plus the returned rows for a select) as
  an argument; each operation returns the list of remote calls it issued
  together with the new `columns` state, exactly following the success
  and catch paths of the source.
-/

namespace Kanban

/-- The `Task` record of `src/types/kanban.ts`. -/
structure Task where
  id : String
  title : String
  description : String
  status : String
  priority : String
  createdAt : Int
  owner : Option String
  dueDate : Int
deriving DecidableEq, Repr

/-- The `KanbanColumn` record of `src/types/kanban.ts`. -/
structure KanbanColumn where
  id : String
  title : String
  tasks : List Task
deriving DecidableEq, Repr

/-- The initial `columns` state of `KanbanProvider` (lines 35-40). -/
def initialColumns : List KanbanColumn :=
  [ ⟨"backlog", "Backlog", []⟩,
    ⟨"todo", "To Do", []⟩,
    ⟨"in-progress", "In Progress", []⟩,
    ⟨"done", "Done", []⟩ ]

/-- A Supabase auth user as used by the context: `user.id` and the
possibly-absent `user.email`. -/
structure User where
  id : String
  email : Option String
deriving DecidableEq, Repr

/-- `user.email || user.id`: JavaScript `||` falls through on the empty
string and on a missing email. -/
def ownerLabel (u : User) : String :=
  match u.email with
  | some e => if e == "" then u.id else e
  | none => u.id

/-- A row of the `tasks` table as returned by the Supabase select. -/
structure TaskRow where
  id : String
  title : String
  description : String
  status : String
  priority : String
  created_at : Int
  owner : Option String
  due_date : Option Int
deriving DecidableEq, Repr

/-- `mapTaskFromSupabase` (lines 21-32): `task.owner || null` and the
default due date of "tomorrow" (`Date.now() + 86400000`). -/
def mapTaskFromSupabase (now : Int) (r : TaskRow) : Task :=
  { id := r.id
    title := r.title
    description := r.description
    status := r.status
    priority := r.priority
    createdAt := r.created_at
    owner := match r.owner with
      | some o => if o == "" then none else some o
      | none => none
    dueDate := match r.due_date with
      | some d => d
      | none => now + 86400000 }

/-- The descriptor of one remote (Supabase) call issued by an operation. -/
inductive RemoteCall where
  | selectTasks (userId : String)
  | insertTask (id title description status priority : String)
      (createdAt : Int) (userId : String) (dueDate : Int) (owner : String)
  | updateStatus (id status : String)
  | updateDetails (id title description priority : String) (dueDate : Int)
  | deleteRow (id : String)
deriving DecidableEq, Repr

/-- The `setColumns` updater of `addTask` (lines 138-156): append the new
task to the column whose id equals the requested status. -/
def addTaskLocal (status : String) (newTask : Task)
    (cols : List KanbanColumn) : List KanbanColumn :=
  cols.map fun column =>
    if column.id == status then
      { column with tasks := column.tasks ++ [newTask] }
    else
      column

/-- `addTask` (lines 102-160): bail out with no remote call when no user
is logged in; otherwise insert the row and, on success, append the new
task locally.  `newId` stands for the generated `uuidv4()`, `now` for
`new Date()`. -/
def addTask (user : Option User) (newId title description status priority : String)
    (dueDate now : Int) (ok : Bool) (cols : List KanbanColumn) :
    List RemoteCall × List KanbanColumn :=
  match user with
  | none => ([], cols)
  | some u =>
    let call := RemoteCall.insertTask newId title description status priority
      now u.id dueDate (ownerLabel u)
    if ok then
      ([call], addTaskLocal status
        ⟨newId, title, description, status, priority, now,
          some (ownerLabel u), dueDate⟩ cols)
    else
      ([call], cols)

/-- The `setColumns` updater of `updateTaskStatus` (lines 171-188): drop
the task from every column, then append it (with the new status) to the
column whose id equals the new status, looking the task up in the state
before the update. -/
def updateTaskStatusLocal (id newStatus : String)
    (cols : List KanbanColumn) : List KanbanColumn :=
  (cols.map fun column =>
      { column with tasks := column.tasks.filter (fun task => task.id != id) }
    ).map fun column =>
      if column.id == newStatus then
        match (cols.flatMap (fun col => col.tasks)).find?
            (fun task => task.id == id) with
        | some taskToUpdate =>
          { column with
            tasks := column.tasks ++ [{ taskToUpdate with status := newStatus }] }
        | none => column
      else
        column

/-- `updateTaskStatus` (lines 162-192). -/
def updateTaskStatus (id newStatus : String) (ok : Bool)
    (cols : List KanbanColumn) : List RemoteCall × List KanbanColumn :=
  ([RemoteCall.updateStatus id newStatus],
    if ok then updateTaskStatusLocal id newStatus cols else cols)

/-- The `setColumns` updater of `updateTaskDetails` (lines 203-214). -/
def updateTaskDetailsLocal (id title description priority : String)
    (dueDate : Int) (cols : List KanbanColumn) : List KanbanColumn :=
  cols.map fun column =>
    { column with
      tasks := column.tasks.map fun task =>
        if task.id == id then
          { task with
              title := title
              description := description
              priority := priority
              dueDate := dueDate }
        else
          task }

/-- `updateTaskDetails` (lines 194-218). -/
def updateTaskDetails (id title description priority : String)
    (dueDate : Int) (ok : Bool) (cols : List KanbanColumn) :
    List RemoteCall × List KanbanColumn :=
  ([RemoteCall.updateDetails id title description priority dueDate],
    if ok then updateTaskDetailsLocal id title description priority dueDate cols
    else cols)

/-- The `setColumns` updater of `deleteTask` (lines 229-235). -/
def deleteTaskLocal (id : String) (cols : List KanbanColumn) :
    List KanbanColumn :=
  cols.map fun column =>
    { column with tasks := column.tasks.filter (fun task => task.id != id) }

/-- `deleteTask` (lines 220-239). -/
def deleteTask (id : String) (ok : Bool) (cols : List KanbanColumn) :
    List RemoteCall × List KanbanColumn :=
  ([RemoteCall.deleteRow id],
    if ok then deleteTaskLocal id cols else cols)

/-- `moveTask` (lines 242-245): an alias for `updateTaskStatus`. -/
def moveTask (id newStatus : String) (ok : Bool)
    (cols : List KanbanColumn) : List RemoteCall × List KanbanColumn :=
  updateTaskStatus id newStatus ok cols

/-- A call of `moveTask` with a third (insertion index) argument, as
`handleDrop` performs it: JavaScript ignores arguments beyond a
function's parameter list, so the index is dropped. -/
def moveTaskCalledWithIndex (id newStatus : String) (_idx : Option Nat)
    (ok : Bool) (cols : List KanbanColumn) :
    List RemoteCall × List KanbanColumn :=
  moveTask id newStatus ok cols

/-- `fetchTasks` (lines 48-100): with no user, reset to the four empty
columns with no remote call; otherwise select the user's rows and, on
success, rebuild the four columns by filtering the rows by status in
returned order. -/
def fetchTasks (user : Option User) (rows : List TaskRow) (ok : Bool)
    (now : Int) (cols : List KanbanColumn) :
    List RemoteCall × List KanbanColumn :=
  match user with
  | none => ([], initialColumns)
  | some u =>
    if ok then
      ([RemoteCall.selectTasks u.id],
        [ ⟨"backlog", "Backlog",
            (rows.filter (fun r => r.status == "backlog")).map
              (mapTaskFromSupabase now)⟩,
          ⟨"todo", "To Do",
            (rows.filter (fun r => r.status == "todo")).map
              (mapTaskFromSupabase now)⟩,
          ⟨"in-progress", "In Progress",
            (rows.filter (fun r => r.status == "in-progress")).map
              (mapTaskFromSupabase now)⟩,
          ⟨"done", "Done",
            (rows.filter (fun r => r.status == "done")).map
              (mapTaskFromSupabase now)⟩ ])
    else
      ([RemoteCall.selectTasks u.id], cols)

/-- The `forEach` loop of `handleDragOver` (lines 42-54): scan the task
elements' vertical middles, keeping the index of the closest one.  The
accumulator is `none` while `closestIdx` is still `-1` (with
`closestDistance = Infinity`); the stored pair is `(closestIdx,
closestDistance)`.  The strict `<` keeps the first index attaining the
minimum distance. -/
def scanClosest (y : Int) : List Int → Nat → Option (Nat × Nat) → Option (Nat × Nat)
  | [], _, acc => acc
  | m :: ms, i, acc =>
    let distance := (y - m).natAbs
    let acc' :=
      match acc with
      | none => some (i, distance)
      | some (closestIdx, closestDistance) =>
        if distance < closestDistance then some (i, distance)
        else some (closestIdx, closestDistance)
    scanClosest y ms (i + 1) acc'

/-- The `dragOverIndex` computed by `handleDragOver` (lines 32-78).
`y` is `e.clientY`, `columnTop` is `columnRect.top`, `middles` lists the
vertical middle (`rect.top + rect.height / 2`) of each `.task-card`
element in order, `nTasks` is `column.tasks.length`.  The column ref is
assumed attached. -/
def handleDragOverIndex (y columnTop : Int) (middles : List Int)
    (nTasks : Nat) : Nat :=
  if 0 < nTasks then
    match scanClosest y middles 0 none with
    | some (closestIdx, _) =>
      match middles[closestIdx]? with
      | some taskMiddle => if y < taskMiddle then closestIdx else closestIdx + 1
      | none => 0
    | none =>
      if y < columnTop + 100 then 0 else nTasks
  else
    0

/-- `handleDrop` (lines 87-95): read the dragged task id from the drag
data (the empty string when unset, which is falsy); when truthy, call
`moveTask(taskId, column.id, dragOverIndex ?? undefined)`.  Returns the
move invocation performed (if any) together with the resulting columns
state. -/
def handleDrop (taskId columnId : String) (dragOverIndex : Option Nat)
    (ok : Bool) (cols : List KanbanColumn) :
    Option (String × String × Option Nat) × List KanbanColumn :=
  if taskId == "" then
    (none, cols)
  else
    (some (taskId, columnId, dragOverIndex),
      (moveTaskCalledWithIndex taskId columnId dragOverIndex ok cols).2)

/-- One mutation of the Kanban context, with the arguments the UI
supplies (`newId` is the `uuidv4()` value, `now` the creation time). -/
inductive Op where
  | add (newId title description status priority : String)
      (dueDate now : Int) (user : User)
  | updStatus (id status : String)
  | updDetails (id title description priority : String) (dueDate : Int)
  | del (id : String)
  | move (id status : String)
deriving DecidableEq, Repr

/-- The success-path state transformation of one operation: a user is
logged in for `add` and every remote call succeeds. -/
def stepOp (cols : List KanbanColumn) : Op → List KanbanColumn
  | .add newId title description status priority dueDate now user =>
    (addTask (some user) newId title description status priority
      dueDate now true cols).2
  | .updStatus id status => updateTaskStatusLocal id status cols
  | .updDetails id title description priority dueDate =>
    updateTaskDetailsLocal id title description priority dueDate cols
  | .del id => deleteTaskLocal id cols
  | .move id status => (moveTask id status true cols).2

/-- Apply a sequence of operations in order. -/
def applyOps (cols : List KanbanColumn) : List Op → List KanbanColumn
  | [] => cols
  | op :: ops => applyOps (stepOp cols op) ops

/-- All task ids in the board, column by column. -/
def taskIds (cols : List KanbanColumn) : List String :=
  (cols.flatMap (fun c => c.tasks)).map (fun t => t.id)

/-- The column ids, in order. -/
def colIds (cols : List KanbanColumn) : List String :=
  cols.map (fun c => c.id)

/-- `uuidv4` freshness for one operation: an `add`'s generated id is not
already present in the current state. -/
def freshOk (cols : List KanbanColumn) : Op → Bool
  | .add newId _ _ _ _ _ _ _ => !(taskIds cols).contains newId
  | _ => true

/-- `uuidv4` freshness along a trace: each `add`'s generated id is not
already present when the operation runs. -/
def freshTrace (cols : List KanbanColumn) : List Op → Bool
  | [] => true
  | op :: ops => freshOk cols op && freshTrace (stepOp cols op) ops

/-- Each task id appears in the task list of at most one column. -/
def AtMostOneColumn (cols : List KanbanColumn) : Prop :=
  ∀ i j : Fin cols.length, ∀ t ∈ (cols.get i).tasks, ∀ u ∈ (cols.get j).tasks,
    t.id = u.id → i = j

/-- Every task stored in a column has its status equal to that column's id. -/
def StatusMatches (cols : List KanbanColumn) : Prop :=
  ∀ c ∈ cols, ∀ t ∈ c.tasks, t.status = c.id

/-! Concrete fixtures used by witnesses and counterexamples. -/

/-- A small concrete task. -/
def mkTask (id status : String) : Task :=
  ⟨id, id, "", status, "medium", 0, none, 1⟩

/-- A concrete board: task `c` in backlog, tasks `a`, `b` in todo. -/
def cexCols : List KanbanColumn :=
  [ ⟨"backlog", "Backlog", [mkTask "c" "backlog"]⟩,
    ⟨"todo", "To Do", [mkTask "a" "todo", mkTask "b" "todo"]⟩,
    ⟨"in-progress", "In Progress", []⟩,
    ⟨"done", "Done", []⟩ ]

/-- C2: every mutation of the Kanban context — `addTask`,
`updateTaskStatus`, `updateTaskDetails`, `deleteTask` and `moveTask` —
leaves the in-memory `columns` state exactly as it was when the remote
call reports an error. -/
theorem claim_C2_error_leaves_state_unchanged (user : Option User)
    (newId title description status priority id s : String)
    (dueDate now : Int) (cols : List KanbanColumn) :
    (addTask user newId title description status priority dueDate now false cols).2 = cols ∧
    (updateTaskStatus id s false cols).2 = cols ∧
    (updateTaskDetails id title description priority dueDate false cols).2 = cols ∧
    (deleteTask id false cols).2 = cols ∧
    (moveTask id s false cols).2 = cols := by
  refine ⟨?_, rfl, rfl, rfl, rfl⟩
  cases user <;> rfl

/-- C5: after a successful fetch for a logged-in user, the state is the
four columns backlog, todo, in-progress, done in that order, and each
column's task list is the status-filtered subsequence of the returned
rows, mapped in returned order. -/
theorem claim_C5_fetch_builds_columns (u : User) (rows : List TaskRow)
    (now : Int) (cols : List KanbanColumn) :
    ((fetchTasks (some u) rows true now cols).2.map fun c => (c.id, c.title)) =
      [("backlog", "Backlog"), ("todo", "To Do"),
        ("in-progress", "In Progress"), ("done", "Done")] ∧
    ∀ c ∈ (fetchTasks (some u) rows true now cols).2,
      c.tasks = (rows.filter (fun r => r.status == c.id)).map
        (mapTaskFromSupabase now) := by
  constructor
  · rfl
  · intro c hc
    simp only [fetchTasks, if_true, List.mem_cons, List.not_mem_nil, or_false] at hc
    rcases hc with h | h | h | h <;> subst h <;> rfl

/-- C6: with no authenticated user, a fetch performs no remote query and
resets the state to the four empty columns, and `addTask` performs no
insert and leaves the columns state unchanged. -/
theorem claim_C6_no_user_no_remote (rows : List TaskRow) (ok : Bool)
    (now dueDate : Int) (newId title description status priority : String)
    (cols : List KanbanColumn) :
    fetchTasks none rows ok now cols = ([], initialColumns) ∧
    addTask none newId title description status priority dueDate now ok cols
      = ([], cols) :=
  ⟨rfl, rfl⟩

/-- C8: `moveTask` is extensionally `updateTaskStatus` — same remote
call, same resulting columns — and a third insertion-index argument
supplied by a caller is dropped without effect. -/
theorem claim_C8_moveTask_is_updateTaskStatus (id s : String)
    (idx : Option Nat) (ok : Bool) (cols : List KanbanColumn) :
    moveTask id s ok cols = updateTaskStatus id s ok cols ∧
    moveTaskCalledWithIndex id s idx ok cols = updateTaskStatus id s ok cols :=
  ⟨rfl, rfl⟩

/-- C7: a successful `deleteTask id` filters every task with that id out
of every column, keeping the column count, each column's id and title,
and the relative order of the surviving tasks; when no task has the id,
the columns state is unchanged. -/
theorem claim_C7_delete_filters_id (id : String) (cols : List KanbanColumn) :
    (deleteTask id true cols).2.length = cols.length ∧
    (∀ i (h : i < cols.length),
      (deleteTask id true cols).2[i]? =
        some { cols[i] with
                tasks := (cols[i]).tasks.filter (fun t => t.id != id) }) ∧
    (∀ c ∈ (deleteTask id true cols).2, ∀ t ∈ c.tasks, t.id ≠ id) ∧
    ((∀ c ∈ cols, ∀ t ∈ c.tasks, t.id ≠ id) →
      (deleteTask id true cols).2 = cols) := by
  refine ⟨by simp [deleteTask, deleteTaskLocal], ?_, ?_, ?_⟩
  · intro i h
    simp [deleteTask, deleteTaskLocal, List.getElem?_eq_getElem h]
  · intro c hc t ht
    simp only [deleteTask, deleteTaskLocal, if_true, List.mem_map] at hc
    obtain ⟨c₀, _, rfl⟩ := hc
    simp only [List.mem_filter, bne_iff_ne, ne_eq, decide_not,
      decide_eq_true_eq] at ht
    simpa using ht.2
  · intro hnone
    have : cols.map (fun column =>
        { column with tasks := column.tasks.filter (fun t => t.id != id) })
        = cols.map (fun c => c) := by
      apply List.map_congr_left
      intro c hc
      have : c.tasks.filter (fun t => t.id != id) = c.tasks := by
        apply List.filter_eq_self.mpr
        intro t ht
        simpa using hnone c hc t ht
      simp [this]
    simp [deleteTask, deleteTaskLocal, this]

/-- C7 witness: deleting an absent id leaves the concrete board as it
was, column by column. -/
theorem claim_C7_delete_filters_id_witness :
    (deleteTask "zzz" true cexCols).2[0]? =
      some { cexCols[0] with
              tasks := (cexCols[0]).tasks.filter (fun t => t.id != "zzz") } ∧
    (deleteTask "zzz" true cexCols).2 = cexCols :=
  ⟨(claim_C7_delete_filters_id "zzz" cexCols).2.1 0 (by decide),
    (claim_C7_delete_filters_id "zzz" cexCols).2.2.2 (by decide)⟩

/-- C9: a successful `updateTaskDetails` rewrites exactly the title,
description, priority and due date of each task whose id matches,
preserving its id, status, creation time, owner and position, and leaves
every other task and every column's id, title and order unchanged. -/
theorem claim_C9_update_details_frame (id title description priority : String)
    (dueDate : Int) (cols : List KanbanColumn) :
    (updateTaskDetails id title description priority dueDate true cols).2.length
      = cols.length ∧
    ∀ i (hi : i < cols.length),
      ∃ c', (updateTaskDetails id title description priority dueDate true cols).2[i]?
          = some c' ∧
        c'.id = (cols[i]).id ∧ c'.title = (cols[i]).title ∧
        c'.tasks.length = (cols[i]).tasks.length ∧
        ∀ j (hj : j < (cols[i]).tasks.length),
          ∃ t', c'.tasks[j]? = some t' ∧
            (((cols[i]).tasks[j]).id = id →
              t'.title = title ∧ t'.description = description ∧
              t'.priority = priority ∧ t'.dueDate = dueDate ∧
              t'.id = ((cols[i]).tasks[j]).id ∧
              t'.status = ((cols[i]).tasks[j]).status ∧
              t'.createdAt = ((cols[i]).tasks[j]).createdAt ∧
              t'.owner = ((cols[i]).tasks[j]).owner) ∧
            (((cols[i]).tasks[j]).id ≠ id → t' = (cols[i]).tasks[j]) := by
  refine ⟨by simp [updateTaskDetails, updateTaskDetailsLocal], ?_⟩
  intro i hi
  refine ⟨{ cols[i] with
      tasks := (cols[i]).tasks.map fun task =>
        if task.id == id then
          { task with
              title := title
              description := description
              priority := priority
              dueDate := dueDate }
        else task },
    ?_, rfl, rfl, by simp, ?_⟩
  · simp [updateTaskDetails, updateTaskDetailsLocal,
      List.getElem?_eq_getElem hi]
  · intro j hj
    by_cases h : ((cols[i]).tasks[j]).id = id
    · refine ⟨{ (cols[i]).tasks[j] with
          title := title
          description := description
          priority := priority
          dueDate := dueDate },
        ?_, fun _ => ⟨rfl, rfl, rfl, rfl, rfl, rfl, rfl, rfl⟩,
        fun hne => absurd h hne⟩
      simp [List.getElem?_eq_getElem hj, h]
    · refine ⟨(cols[i]).tasks[j], ?_, fun h' => absurd h' h, fun _ => rfl⟩
      simp [List.getElem?_eq_getElem hj, h]

/-- C9 witness: on the concrete board, editing task `a` rewrites its
four editable fields and leaves task `b` alone. -/
theorem claim_C9_update_details_frame_witness :
    ∃ c', (updateTaskDetails "a" "T" "D" "high" 9 true cexCols).2[1]? = some c' ∧
      c'.id = (cexCols[1]).id ∧ c'.title = (cexCols[1]).title ∧
      c'.tasks.length = (cexCols[1]).tasks.length ∧
      ∀ j (hj : j < (cexCols[1]).tasks.length),
        ∃ t', c'.tasks[j]? = some t' ∧
          ((((cexCols[1]).tasks[j]).id = "a" →
            t'.title = "T" ∧ t'.description = "D" ∧
            t'.priority = "high" ∧ t'.dueDate = 9 ∧
            t'.id = (((cexCols[1]).tasks[j])).id ∧
            t'.status = (((cexCols[1]).tasks[j])).status ∧
            t'.createdAt = (((cexCols[1]).tasks[j])).createdAt ∧
            t'.owner = (((cexCols[1]).tasks[j])).owner)) ∧
          ((((cexCols[1]).tasks[j]).id ≠ "a") → t' = ((cexCols[1]).tasks[j])) :=
  (claim_C9_update_details_frame "a" "T" "D" "high" 9 cexCols).2 1 (by decide)

/-! Proof-internal reshaping of `updateTaskStatusLocal`: the two `map`s
fused into one, with the `find?` over the previous state precomputed. -/

/-- One-map form of the `updateTaskStatus` state update, with the looked-up
task passed in as `res`. -/
def updCore (id s : String) (res : Option Task) (cols : List KanbanColumn) :
    List KanbanColumn :=
  cols.map fun c =>
    if c.id == s then
      match res with
      | some t =>
        { c with tasks := c.tasks.filter (fun u => u.id != id) ++
            [{ t with status := s }] }
      | none => { c with tasks := c.tasks.filter (fun u => u.id != id) }
    else
      { c with tasks := c.tasks.filter (fun u => u.id != id) }

lemma updateTaskStatusLocal_eq_updCore (id s : String)
    (cols : List KanbanColumn) :
    updateTaskStatusLocal id s cols =
      updCore id s
        ((cols.flatMap fun col => col.tasks).find? fun t => t.id == id) cols := by
  unfold updateTaskStatusLocal updCore
  rw [List.map_map]
  cases (cols.flatMap fun col => col.tasks).find? fun t => t.id == id
  all_goals
    apply List.map_congr_left
    intro c _
    by_cases h : c.id == s <;> simp [Function.comp, h]

/-- Filtering task ids commutes with taking ids. -/
lemma ids_filter (id : String) (tasks : List Task) :
    ((tasks.filter fun u => u.id != id).map fun t => t.id)
      = (tasks.map fun t => t.id).filter (fun x => x != id) := by
  induction tasks with
  | nil => rfl
  | cons t ts ih =>
    by_cases h : t.id = id <;> simp [List.filter_cons, h, ih]

/-- `taskIds` of a cons. -/
lemma taskIds_cons (c : KanbanColumn) (cs : List KanbanColumn) :
    taskIds (c :: cs) = (c.tasks.map fun t => t.id) ++ taskIds cs := by
  simp [taskIds, List.flatMap_cons]

/-- Counting ids after the per-task filter: the removed id counts zero,
every other id keeps its count. -/
lemma count_ids_filter (id x : String) (tasks : List Task) :
    (((tasks.map fun u => u.id).filter fun y => y != id)).count x
      = if x = id then 0 else (tasks.map fun u => u.id).count x := by
  by_cases hx : x = id
  · rw [if_pos hx]
    apply List.count_eq_zero.mpr
    intro hmem
    have := List.of_mem_filter hmem
    rw [hx] at this
    simp at this
  · rw [if_neg hx]
    exact List.count_filter (by simp [hx])

lemma count_taskIds_updCore_some (id s : String) (t : Task)
    (hid : t.id = id) (cols : List KanbanColumn) (x : String) :
    (taskIds (updCore id s (some t) cols)).count x =
      (if x = id then (colIds cols).count s else (taskIds cols).count x) := by
  have hid' : ({ t with status := s } : Task).id = id := hid
  induction cols with
  | nil => by_cases hx : x = id <;> simp [updCore, taskIds, colIds, hx]
  | cons c cs ih =>
    have hone : (([{ t with status := s }] : List Task).map fun u => u.id).count x
        = if x = id then 1 else 0 := by
      by_cases hx : x = id
      · simp [hid, hx]
      · simp [hid, hx, Ne.symm hx]
    by_cases h : c.id == s
    · have hstep : updCore id s (some t) (c :: cs)
          = { c with tasks := c.tasks.filter (fun u => u.id != id)
                ++ [{ t with status := s }] } :: updCore id s (some t) cs := by
        simp only [updCore, List.map_cons, h, if_true]
      rw [hstep, taskIds_cons]
      simp only [List.map_append, List.count_append, ids_filter,
        count_ids_filter, hone, ih]
      have hcol : (colIds (c :: cs)).count s = (colIds cs).count s + 1 := by
        simp [colIds, List.count_cons, h]
      rw [taskIds_cons, List.count_append, hcol]
      by_cases hx : x = id <;> simp [hx] <;> omega
    · have hstep : updCore id s (some t) (c :: cs)
          = { c with tasks := c.tasks.filter (fun u => u.id != id) }
              :: updCore id s (some t) cs := by
        simp only [updCore, List.map_cons, h]
        simp
      have hcol : (colIds (c :: cs)).count s = (colIds cs).count s := by
        simp [colIds, List.count_cons, h]
      rw [hstep, taskIds_cons, List.count_append, ids_filter,
        count_ids_filter, ih, hcol, taskIds_cons, List.count_append]
      by_cases hx : x = id <;> simp [hx, count_ids_filter]

lemma find?_id_some (id : String) (cols : List KanbanColumn) (t : Task)
    (h : ((cols.flatMap fun c => c.tasks).find? fun u => u.id == id) = some t) :
    t.id = id := by
  have := List.find?_some h
  simpa using this

lemma no_id_of_find?_none (id : String) (cols : List KanbanColumn)
    (h : ((cols.flatMap fun c => c.tasks).find? fun u => u.id == id) = none) :
    ∀ c ∈ cols, ∀ t ∈ c.tasks, t.id ≠ id := by
  intro c hc t ht
  have := List.find?_eq_none.mp h t (List.mem_flatMap.mpr ⟨c, hc, ht⟩)
  simpa using this

/-- The per-column strip map is the identity when no task has the id. -/
lemma strip_eq_self (id : String) (cols : List KanbanColumn)
    (h : ∀ c ∈ cols, ∀ t ∈ c.tasks, t.id ≠ id) :
    (cols.map fun c =>
      { c with tasks := c.tasks.filter fun u => u.id != id }) = cols := by
  have h2 : (cols.map fun c =>
      { c with tasks := c.tasks.filter fun u => u.id != id })
      = cols.map fun c => c := by
    apply List.map_congr_left
    intro c hc
    have : c.tasks.filter (fun u => u.id != id) = c.tasks :=
      List.filter_eq_self.mpr fun t ht => by simpa using h c hc t ht
    rw [this]
  rw [h2]
  simp

/-- With no looked-up task, the `updateTaskStatus` update only strips. -/
lemma updCore_none (id s : String) (cols : List KanbanColumn) :
    updCore id s none cols
      = cols.map fun c =>
          { c with tasks := c.tasks.filter fun u => u.id != id } := by
  apply List.map_congr_left
  intro c _
  by_cases h : c.id == s <;> simp [h]

lemma updateTaskStatusLocal_of_find?_none (id s : String)
    (cols : List KanbanColumn)
    (h : ((cols.flatMap fun c => c.tasks).find? fun u => u.id == id) = none) :
    updateTaskStatusLocal id s cols = cols := by
  rw [updateTaskStatusLocal_eq_updCore, h, updCore_none,
    strip_eq_self id cols (no_id_of_find?_none id cols h)]

lemma count_taskIds_updCore_none (id s : String) (cols : List KanbanColumn)
    (x : String) :
    (taskIds (updCore id s none cols)).count x
      = if x = id then 0 else (taskIds cols).count x := by
  rw [updCore_none]
  induction cols with
  | nil => by_cases hx : x = id <;> simp [taskIds, hx]
  | cons c cs ih =>
    rw [List.map_cons, taskIds_cons, List.count_append, ids_filter,
      count_ids_filter, ih, taskIds_cons, List.count_append]
    by_cases hx : x = id <;> simp [hx]

/-- Column ids survive any per-column map that keeps them. -/
lemma colIds_map (f : KanbanColumn → KanbanColumn)
    (hf : ∀ c, (f c).id = c.id) (cols : List KanbanColumn) :
    colIds (cols.map f) = colIds cols := by
  simp only [colIds, List.map_map]
  apply List.map_congr_left
  intro c _
  exact hf c

lemma colIds_updCore (id s : String) (res : Option Task)
    (cols : List KanbanColumn) :
    colIds (updCore id s res cols) = colIds cols := by
  apply colIds_map
  intro c
  by_cases h : c.id == s <;> cases res <;> simp [h]

lemma statusMatches_updCore (id s : String) (res : Option Task)
    (cols : List KanbanColumn) (hs : StatusMatches cols) :
    StatusMatches (updCore id s res cols) := by
  intro c' hc' t ht
  simp only [updCore, List.mem_map] at hc'
  obtain ⟨c, hc, rfl⟩ := hc'
  by_cases h : c.id == s
  · have hcid : c.id = s := by simpa using h
    cases res with
    | none =>
      simp only [h, if_true] at ht ⊢
      exact hs c hc t (List.mem_of_mem_filter ht)
    | some u =>
      simp only [h, if_true] at ht ⊢
      rcases List.mem_append.mp ht with h1 | h1
      · exact hs c hc t (List.mem_of_mem_filter h1)
      · have ht' : t = { u with status := s } := by simpa using h1
        subst ht'
        simpa [h] using hcid.symm
  · simp only [h, if_false] at ht ⊢
    exact hs c hc t (List.mem_of_mem_filter ht)

lemma addTaskLocal_cons (status : String) (nt : Task) (c : KanbanColumn)
    (cs : List KanbanColumn) :
    addTaskLocal status nt (c :: cs)
      = (if c.id == status then { c with tasks := c.tasks ++ [nt] } else c)
          :: addTaskLocal status nt cs := rfl

lemma count_taskIds_addTaskLocal (status : String) (nt : Task)
    (cols : List KanbanColumn) (x : String) :
    (taskIds (addTaskLocal status nt cols)).count x
      = (taskIds cols).count x
        + (if x = nt.id then (colIds cols).count status else 0) := by
  induction cols with
  | nil => by_cases hx : x = nt.id <;> simp [addTaskLocal, taskIds, colIds, hx]
  | cons c cs ih =>
    have hcol : (colIds (c :: cs)).count status
        = (colIds cs).count status + (if c.id == status then 1 else 0) := by
      by_cases h : c.id == status <;> simp [colIds, List.count_cons, h]
    rw [addTaskLocal_cons]
    by_cases h : c.id == status
    · rw [if_pos h, taskIds_cons, List.map_append, List.count_append,
        List.count_append, ih, taskIds_cons, List.count_append, hcol,
        if_pos h]
      by_cases hx : x = nt.id
      · simp [hx] <;> omega
      · have hne : (nt.id == x) = false := by
          simp only [beq_eq_false_iff_ne, ne_eq]
          exact fun hh => hx hh.symm
        simp [hx, hne] <;> omega
    · rw [if_neg h, taskIds_cons, List.count_append, ih, taskIds_cons,
        List.count_append, hcol, if_neg h]
      by_cases hx : x = nt.id <;> simp [hx] <;> omega

lemma colIds_addTaskLocal (status : String) (nt : Task)
    (cols : List KanbanColumn) :
    colIds (addTaskLocal status nt cols) = colIds cols := by
  apply colIds_map
  intro c
  by_cases h : c.id == status <;> simp [h]

lemma statusMatches_addTaskLocal (status : String) (nt : Task)
    (hnt : nt.status = status) (cols : List KanbanColumn)
    (hs : StatusMatches cols) :
    StatusMatches (addTaskLocal status nt cols) := by
  intro c' hc' t ht
  simp only [addTaskLocal, List.mem_map] at hc'
  obtain ⟨c, hc, rfl⟩ := hc'
  by_cases h : c.id == status
  · have hcid : c.id = status := by simpa using h
    simp only [h, if_true] at ht ⊢
    rcases List.mem_append.mp ht with h1 | h1
    · exact hs c hc t h1
    · have ht' : t = nt := by simpa using h1
      subst ht'
      simpa [h] using (hnt.trans hcid.symm)
  · simp only [h, if_false] at ht ⊢
    exact hs c hc t ht

/-- A per-task map that keeps ids keeps `taskIds`. -/
lemma taskIds_map_tasks (f : Task → Task) (hf : ∀ t, (f t).id = t.id)
    (cols : List KanbanColumn) :
    taskIds (cols.map fun c => { c with tasks := c.tasks.map f })
      = taskIds cols := by
  induction cols with
  | nil => rfl
  | cons c cs ih =>
    rw [List.map_cons, taskIds_cons, taskIds_cons, ih, List.map_map]
    congr 1
    apply List.map_congr_left
    intro t _
    exact hf t

lemma statusMatches_map_tasks (f : Task → Task)
    (hf : ∀ t, (f t).status = t.status) (cols : List KanbanColumn)
    (hs : StatusMatches cols) :
    StatusMatches (cols.map fun c => { c with tasks := c.tasks.map f }) := by
  intro c' hc' t ht
  simp only [List.mem_map] at hc'
  obtain ⟨c, hc, rfl⟩ := hc'
  simp only [List.mem_map] at ht
  obtain ⟨u, hu, rfl⟩ := ht
  show (f u).status = c.id
  rw [hf u]
  exact hs c hc u hu

lemma taskIds_deleteTaskLocal (id : String) (cols : List KanbanColumn) :
    taskIds (deleteTaskLocal id cols)
      = (taskIds cols).filter fun x => x != id := by
  induction cols with
  | nil => rfl
  | cons c cs ih =>
    simp only [deleteTaskLocal, List.map_cons] at *
    rw [taskIds_cons, taskIds_cons, ih, ids_filter, List.filter_append]

lemma statusMatches_deleteTaskLocal (id : String) (cols : List KanbanColumn)
    (hs : StatusMatches cols) : StatusMatches (deleteTaskLocal id cols) := by
  intro c' hc' t ht
  simp only [deleteTaskLocal, List.mem_map] at hc'
  obtain ⟨c, hc, rfl⟩ := hc'
  exact hs c hc t (List.mem_of_mem_filter ht)

/-- The strengthened invariant carried through operation sequences:
distinct column ids, status/column agreement, and distinct task ids. -/
def InvS (cols : List KanbanColumn) : Prop :=
  (colIds cols).Nodup ∧ StatusMatches cols ∧ (taskIds cols).Nodup

lemma count_le_one_of_nodup {l : List String} (h : l.Nodup) (x : String) :
    l.count x ≤ 1 :=
  List.nodup_iff_count_le_one.mp h x

lemma invS_updateTaskStatusLocal (id status : String)
    (cols : List KanbanColumn) (h : InvS cols) :
    InvS (updateTaskStatusLocal id status cols) := by
  obtain ⟨hc, hs, ht⟩ := h
  rw [updateTaskStatusLocal_eq_updCore]
  cases hres : (cols.flatMap fun col => col.tasks).find? fun t => t.id == id with
  | none =>
    refine ⟨by rw [colIds_updCore]; exact hc,
      statusMatches_updCore id status none cols hs, ?_⟩
    rw [List.nodup_iff_count_le_one]
    intro x
    rw [count_taskIds_updCore_none]
    by_cases hx : x = id
    · simp [hx]
    · rw [if_neg hx]
      exact count_le_one_of_nodup ht x
  | some t =>
    have hid : t.id = id := find?_id_some id cols t hres
    refine ⟨by rw [colIds_updCore]; exact hc,
      statusMatches_updCore id status (some t) cols hs, ?_⟩
    rw [List.nodup_iff_count_le_one]
    intro x
    rw [count_taskIds_updCore_some id status t hid]
    by_cases hx : x = id
    · rw [if_pos hx]
      exact count_le_one_of_nodup hc status
    · rw [if_neg hx]
      exact count_le_one_of_nodup ht x

lemma invS_step (cols : List KanbanColumn) (op : Op) (h : InvS cols)
    (hfresh : freshOk cols op = true) :
    InvS (stepOp cols op) := by
  obtain ⟨hc, hs, ht⟩ := h
  cases op with
  | add newId title description status priority dueDate now user =>
    have hstep : stepOp cols (.add newId title description status priority
        dueDate now user) = addTaskLocal status
        ⟨newId, title, description, status, priority, now,
          some (ownerLabel user), dueDate⟩ cols := rfl
    rw [hstep]
    have hnotin : newId ∉ taskIds cols := by simpa [freshOk] using hfresh
    refine ⟨by rw [colIds_addTaskLocal]; exact hc, ?_, ?_⟩
    · exact statusMatches_addTaskLocal status _ rfl cols hs
    · rw [List.nodup_iff_count_le_one]
      intro x
      rw [count_taskIds_addTaskLocal]
      by_cases hx : x = newId
      · have h0 : (taskIds cols).count x = 0 :=
          List.count_eq_zero.mpr (hx ▸ hnotin)
        rw [h0, if_pos hx]
        simpa using count_le_one_of_nodup hc status
      · rw [if_neg hx]
        simpa using count_le_one_of_nodup ht x
  | updStatus id status =>
    exact invS_updateTaskStatusLocal id status cols ⟨hc, hs, ht⟩
  | updDetails id title description priority dueDate =>
    have hstep : stepOp cols (.updDetails id title description priority dueDate)
        = cols.map fun c =>
            { c with tasks := c.tasks.map fun task =>
                if task.id == id then
                  { task with
                      title := title
                      description := description
                      priority := priority
                      dueDate := dueDate }
                else task } := rfl
    rw [hstep]
    have hpres : ∀ t : Task,
        ((fun task => if task.id == id then
            { task with
                title := title
                description := description
                priority := priority
                dueDate := dueDate }
          else task) t).id = t.id := by
      intro t
      by_cases h : t.id == id <;> simp [h]
    have hstat : ∀ t : Task,
        ((fun task => if task.id == id then
            { task with
                title := title
                description := description
                priority := priority
                dueDate := dueDate }
          else task) t).status = t.status := by
      intro t
      by_cases h : t.id == id <;> simp [h]
    refine ⟨?_, statusMatches_map_tasks _ hstat cols hs, ?_⟩
    · rw [colIds_map]
      · exact hc
      · intro c
        rfl
    · rw [taskIds_map_tasks _ hpres]
      exact ht
  | del id =>
    have hstep : stepOp cols (.del id) = deleteTaskLocal id cols := rfl
    rw [hstep]
    refine ⟨?_, statusMatches_deleteTaskLocal id cols hs, ?_⟩
    · unfold deleteTaskLocal
      rw [colIds_map]
      · exact hc
      · intro c
        rfl
    · rw [taskIds_deleteTaskLocal]
      exact ht.filter _
  | move id status =>
    exact invS_updateTaskStatusLocal id status cols ⟨hc, hs, ht⟩

lemma invS_applyOps (cols : List KanbanColumn) (ops : List Op)
    (hinv : InvS cols) (h : freshTrace cols ops = true) :
    InvS (applyOps cols ops) := by
  induction ops generalizing cols with
  | nil => exact hinv
  | cons op ops ih =>
    rw [freshTrace, Bool.and_eq_true] at h
    exact ih (stepOp cols op) (invS_step cols op hinv h.1) h.2

lemma taskIds_eq_flatten (cols : List KanbanColumn) :
    taskIds cols = (cols.map fun c => c.tasks.map fun t => t.id).flatten := by
  induction cols with
  | nil => rfl
  | cons c cs ih => rw [taskIds_cons, List.map_cons, List.flatten_cons, ih]

lemma atMostOne_of_nodup (cols : List KanbanColumn)
    (h : (taskIds cols).Nodup) : AtMostOneColumn cols := by
  rw [taskIds_eq_flatten] at h
  have hdisj := (List.nodup_flatten.mp h).2
  rw [List.pairwise_map, List.pairwise_iff_get] at hdisj
  intro i j t ht u hu heq
  by_contra hne
  rcases lt_or_gt_of_ne hne with hlt | hlt
  · exact hdisj i j hlt (List.mem_map_of_mem _ ht)
      (heq ▸ List.mem_map_of_mem (fun v => v.id) hu)
  · exact hdisj j i hlt (List.mem_map_of_mem _ hu)
      (heq ▸ List.mem_map_of_mem (fun v => v.id) ht)

/-- C1: starting from the initial four-column state, any finite sequence
of successful addTask (user logged in, fresh uuid), updateTaskStatus,
updateTaskDetails, deleteTask and moveTask operations leaves every task
id in the task list of at most one column and every stored task's status
field equal to its column's id. -/
theorem claim_C1_column_membership_invariant (ops : List Op)
    (h : freshTrace initialColumns ops = true) :
    AtMostOneColumn (applyOps initialColumns ops) ∧
    StatusMatches (applyOps initialColumns ops) := by
  have hinit : InvS initialColumns := by
    refine ⟨by decide, ?_, by decide⟩
    intro c hc t ht
    simp only [initialColumns, List.mem_cons, List.not_mem_nil, or_false] at hc
    rcases hc with rfl | rfl | rfl | rfl <;> simp at ht
  have hfin := invS_applyOps initialColumns ops hinit h
  exact ⟨atMostOne_of_nodup _ hfin.2.2, hfin.2.1⟩

/-- A concrete operation trace exercising every mutation. -/
def traceOps : List Op :=
  [ Op.add "t1" "Write spec" "" "todo" "high" 1 0 ⟨"u1", some "u1@example.com"⟩,
    Op.add "t2" "Fix bug" "" "backlog" "low" 2 0 ⟨"u1", some "u1@example.com"⟩,
    Op.move "t1" "in-progress",
    Op.updDetails "t2" "Fix bug now" "details" "medium" 5,
    Op.updStatus "t2" "done",
    Op.del "t1" ]

/-- C1 witness: the invariant holds after a concrete trace. -/
theorem claim_C1_column_membership_invariant_witness :
    freshTrace initialColumns traceOps = true ∧
    (AtMostOneColumn (applyOps initialColumns traceOps) ∧
      StatusMatches (applyOps initialColumns traceOps)) :=
  ⟨by decide, claim_C1_column_membership_invariant traceOps (by decide)⟩

lemma find?_eq_of_all_eq {α : Type} (p : α → Bool) (l : List α) (e : α)
    (hall : ∀ a ∈ l, p a = true → a = e) (hex : ∃ a ∈ l, p a = true) :
    l.find? p = some e := by
  rcases hfind : l.find? p with _ | b
  · rw [List.find?_eq_none] at hfind
    obtain ⟨a, ha, hpa⟩ := hex
    exact absurd hpa (hfind a ha)
  · rw [hall b (List.mem_of_find?_eq_some hfind) (List.find?_some hfind)]

/-- Every task carrying the moved id in the updated state is the moved
task itself. -/
lemma mem_tasks_updCore_some (id s : String) (t u : Task)
    (cols : List KanbanColumn) (c' : KanbanColumn)
    (hc' : c' ∈ updCore id s (some t) cols) (hu : u ∈ c'.tasks)
    (huid : u.id = id) : u = { t with status := s } := by
  simp only [updCore, List.mem_map] at hc'
  obtain ⟨c, hc, rfl⟩ := hc'
  by_cases h : c.id == s
  · simp only [h, if_true] at hu
    rcases List.mem_append.mp hu with h1 | h1
    · exact absurd huid (by simpa using (List.mem_filter.mp h1).2)
    · simpa using h1
  · simp only [h, if_false] at hu
    exact absurd huid (by simpa using (List.mem_filter.mp hu).2)

lemma find?_updCore_some_of_target (id s : String) (t : Task)
    (hid : t.id = id) (cols : List KanbanColumn)
    (hcol : ∃ c ∈ cols, c.id = s) :
    (((updCore id s (some t) cols).flatMap fun c => c.tasks).find?
      fun u => u.id == id) = some { t with status := s } := by
  apply find?_eq_of_all_eq
  · intro u hu hpu
    rcases List.mem_flatMap.mp hu with ⟨c', hc', humem⟩
    exact mem_tasks_updCore_some id s t u cols c' hc' humem (by simpa using hpu)
  · obtain ⟨c, hc, hcs⟩ := hcol
    refine ⟨{ t with status := s }, ?_, by simpa using hid⟩
    apply List.mem_flatMap.mpr
    refine ⟨{ c with tasks := c.tasks.filter (fun u => u.id != id)
        ++ [{ t with status := s }] }, ?_, by simp⟩
    simp only [updCore, List.mem_map]
    refine ⟨c, hc, ?_⟩
    have hb : (c.id == s) = true := by simpa using hcs
    simp [hb]

lemma updCore_some_no_target (id s : String) (t : Task)
    (cols : List KanbanColumn) (hcol : ∀ c ∈ cols, c.id ≠ s) :
    updCore id s (some t) cols
      = cols.map fun c =>
          { c with tasks := c.tasks.filter fun u => u.id != id } := by
  apply List.map_congr_left
  intro c hc
  have h : (c.id == s) = false := by simpa using hcol c hc
  simp [h]

lemma strip_strip (id : String) (cols : List KanbanColumn) :
    ((cols.map fun c =>
        { c with tasks := c.tasks.filter fun u => u.id != id }).map
      fun c => { c with tasks := c.tasks.filter fun u => u.id != id })
    = cols.map fun c =>
        { c with tasks := c.tasks.filter fun u => u.id != id } := by
  rw [List.map_map]
  apply List.map_congr_left
  intro c _
  simp only [Function.comp_apply]
  have h1 : (c.tasks.filter fun u => u.id != id).filter (fun u => u.id != id)
      = c.tasks.filter fun u => u.id != id :=
    List.filter_eq_self.mpr fun u hu => (List.mem_filter.mp hu).2
  simp [h1]

lemma find?_strip_none (id : String) (cols : List KanbanColumn) :
    (((cols.map fun c =>
          { c with tasks := c.tasks.filter fun u => u.id != id }).flatMap
        fun c => c.tasks).find? fun u => u.id == id) = none := by
  rw [List.find?_eq_none]
  intro u hu
  rcases List.mem_flatMap.mp hu with ⟨c', hc', humem⟩
  rcases List.mem_map.mp hc' with ⟨c, hc, rfl⟩
  have := (List.mem_filter.mp humem).2
  simpa using this

/-- When the moved task is found, it ends up as the last element of
every target column's task list, with the new status. -/
lemma updateTaskStatusLocal_target_getLast (id s : String)
    (cols : List KanbanColumn) (t : Task)
    (hres : ((cols.flatMap fun c => c.tasks).find? fun u => u.id == id)
      = some t) :
    ∀ c ∈ updateTaskStatusLocal id s cols, c.id = s →
      c.tasks.getLast? = some { t with status := s } := by
  intro c hc hcs
  rw [updateTaskStatusLocal_eq_updCore, hres] at hc
  simp only [updCore, List.mem_map] at hc
  obtain ⟨c0, hc0, rfl⟩ := hc
  by_cases h : c0.id == s
  · simp only [h, if_true] at hcs ⊢
    exact List.getLast?_concat _
  · simp only [h, if_false] at hcs
    exact absurd hcs (by simpa using h)

/-- C10: the success-path columns transformation of `updateTaskStatus`
is idempotent, and when the moved task exists it ends up as the last
element of the target column's task list with the new status. -/
theorem claim_C10_updateStatus_idempotent (id s : String)
    (cols : List KanbanColumn) :
    updateTaskStatusLocal id s (updateTaskStatusLocal id s cols)
      = updateTaskStatusLocal id s cols ∧
    ∀ t, ((cols.flatMap fun c => c.tasks).find? fun u => u.id == id) = some t →
      ∀ c ∈ updateTaskStatusLocal id s cols, c.id = s →
        c.tasks.getLast? = some { t with status := s } := by
  constructor
  · rcases hres : (cols.flatMap fun c => c.tasks).find? fun u => u.id == id
      with _ | t
    · have h1 : updateTaskStatusLocal id s cols = cols :=
        updateTaskStatusLocal_of_find?_none id s cols hres
      rw [h1, h1]
    · by_cases hcol : ∃ c ∈ cols, c.id = s
      · have hid := find?_id_some id cols t hres
        have hfind2 := find?_updCore_some_of_target id s t hid cols hcol
        rw [updateTaskStatusLocal_eq_updCore id s cols, hres,
          updateTaskStatusLocal_eq_updCore id s (updCore id s (some t) cols),
          hfind2]
        unfold updCore
        rw [List.map_map]
        apply List.map_congr_left
        intro c _
        simp only [Function.comp_apply]
        have h1 : (c.tasks.filter fun u => u.id != id).filter
            (fun u => u.id != id) = c.tasks.filter fun u => u.id != id :=
          List.filter_eq_self.mpr fun u hu => (List.mem_filter.mp hu).2
        by_cases h : c.id == s
        · simp only [h, if_true]
          have hq : (({ t with status := s } : Task).id != id) = false := by
            simp [hid]
          have hbody : (((c.tasks.filter fun u => u.id != id)
                ++ [{ t with status := s }] : List Task)).filter
                  (fun u => u.id != id)
              = c.tasks.filter fun u => u.id != id := by
            rw [List.filter_append, h1]
            have h2 : ([{ t with status := s }] : List Task).filter
                (fun u => u.id != id) = [] := by
              simp [List.filter_cons, hq]
            rw [h2, List.append_nil]
          simp [hbody]
        · simp only [h, if_false]
          simp [h1, h]
      · push_neg at hcol
        have hupd : updateTaskStatusLocal id s cols
            = cols.map fun c =>
                { c with tasks := c.tasks.filter fun u => u.id != id } := by
          rw [updateTaskStatusLocal_eq_updCore, hres,
            updCore_some_no_target id s t cols hcol]
        rw [hupd, updateTaskStatusLocal_eq_updCore, find?_strip_none,
          updCore_none, strip_strip]
  · intro t hres
    exact updateTaskStatusLocal_target_getLast id s cols t hres

/-- C10 witness: moving task `c` to todo twice equals moving it once,
and it lands at the end of the todo column. -/
theorem claim_C10_updateStatus_idempotent_witness :
    updateTaskStatusLocal "c" "todo" (updateTaskStatusLocal "c" "todo" cexCols)
      = updateTaskStatusLocal "c" "todo" cexCols ∧
    ∀ c ∈ updateTaskStatusLocal "c" "todo" cexCols, c.id = "todo" →
      c.tasks.getLast? = some { mkTask "c" "backlog" with status := "todo" } :=
  ⟨(claim_C10_updateStatus_idempotent "c" "todo" cexCols).1,
    (claim_C10_updateStatus_idempotent "c" "todo" cexCols).2
      (mkTask "c" "backlog") (by decide)⟩

/-- What one pass of the `forEach` scan guarantees, given the running
best `(bi, bd)`: either the accumulator survives and every remaining
distance is at least `bd`, or the result indexes a scanned element that
strictly beats `bd` and every earlier scanned element, and is no worse
than any scanned element. -/
lemma scanClosest_acc_spec (y : Int) (ms : List Int) :
    ∀ i bi bd : Nat,
    ∃ j d, scanClosest y ms i (some (bi, bd)) = some (j, d) ∧
      ((j = bi ∧ d = bd ∧
          ∀ (k : Nat) (m' : Int), ms[k]? = some m' → bd ≤ (y - m').natAbs)
       ∨ (∃ (k : Nat) (m' : Int), ms[k]? = some m' ∧ j = i + k ∧
            d = (y - m').natAbs ∧ d < bd ∧
            (∀ (k' : Nat) (m'' : Int), k' < k → ms[k']? = some m'' →
              d < (y - m'').natAbs) ∧
            (∀ (k' : Nat) (m'' : Int), ms[k']? = some m'' →
              d ≤ (y - m'').natAbs))) := by
  induction ms with
  | nil =>
    intro i bi bd
    refine ⟨bi, bd, rfl, Or.inl ⟨rfl, rfl, ?_⟩⟩
    intro k m' hk
    simp at hk
  | cons m ms ih =>
    intro i bi bd
    by_cases hlt : (y - m).natAbs < bd
    · have hstep : scanClosest y (m :: ms) i (some (bi, bd))
          = scanClosest y ms (i + 1) (some (i, (y - m).natAbs)) := by
        simp [scanClosest, hlt]
      obtain ⟨j, d, hscan, hcase⟩ := ih (i + 1) i ((y - m).natAbs)
      refine ⟨j, d, by rw [hstep, hscan], Or.inr ?_⟩
      rcases hcase with ⟨hj, hd, hall⟩ | ⟨k, m', hk, hj, hd, hdlt, hstrict, hall⟩
      · refine ⟨0, m, by simp, by omega, by rw [hd],
          by rw [hd] at *; exact hlt, ?_, ?_⟩
        · intro k' m'' hk' _
          omega
        · intro k' m'' hk'
          cases k' with
          | zero =>
            rw [List.getElem?_cons_zero] at hk'
            cases hk'
            rw [hd]
          | succ k'' =>
            rw [List.getElem?_cons_succ] at hk'
            rw [hd]
            exact hall k'' m'' hk'
      · refine ⟨k + 1, m', by rw [List.getElem?_cons_succ]; exact hk,
          by omega, hd, by omega, ?_, ?_⟩
        · intro k' m'' hk'lt hk'
          cases k' with
          | zero =>
            rw [List.getElem?_cons_zero] at hk'
            cases hk'
            omega
          | succ k'' =>
            rw [List.getElem?_cons_succ] at hk'
            exact hstrict k'' m'' (by omega) hk'
        · intro k' m'' hk'
          cases k' with
          | zero =>
            rw [List.getElem?_cons_zero] at hk'
            cases hk'
            omega
          | succ k'' =>
            rw [List.getElem?_cons_succ] at hk'
            exact hall k'' m'' hk'
    · have hstep : scanClosest y (m :: ms) i (some (bi, bd))
          = scanClosest y ms (i + 1) (some (bi, bd)) := by
        simp [scanClosest, hlt]
      obtain ⟨j, d, hscan, hcase⟩ := ih (i + 1) bi bd
      refine ⟨j, d, by rw [hstep, hscan], ?_⟩
      rcases hcase with ⟨hj, hd, hall⟩ | ⟨k, m', hk, hj, hd, hdlt, hstrict, hall⟩
      · refine Or.inl ⟨hj, hd, ?_⟩
        intro k' m'' hk'
        cases k' with
        | zero =>
          rw [List.getElem?_cons_zero] at hk'
          cases hk'
          omega
        | succ k'' =>
          rw [List.getElem?_cons_succ] at hk'
          exact hall k'' m'' hk'
      · refine Or.inr ⟨k + 1, m', by rw [List.getElem?_cons_succ]; exact hk,
          by omega, hd, hdlt, ?_, ?_⟩
        · intro k' m'' hk'lt hk'
          cases k' with
          | zero =>
            rw [List.getElem?_cons_zero] at hk'
            cases hk'
            omega
          | succ k'' =>
            rw [List.getElem?_cons_succ] at hk'
            exact hstrict k'' m'' (by omega) hk'
        · intro k' m'' hk'
          cases k' with
          | zero =>
            rw [List.getElem?_cons_zero] at hk'
            cases hk'
            omega
          | succ k'' =>
            rw [List.getElem?_cons_succ] at hk'
            exact hall k'' m'' hk'

/-- The scan over a non-empty list lands on the first index with minimal
pointer distance. -/
lemma scanClosest_none_spec (y : Int) (ms : List Int) (hne : ms ≠ []) :
    ∃ j d, scanClosest y ms 0 none = some (j, d) ∧ j < ms.length ∧
      (∃ m, ms[j]? = some m ∧ d = (y - m).natAbs) ∧
      (∀ (k : Nat) (m' : Int), ms[k]? = some m' → d ≤ (y - m').natAbs) ∧
      (∀ (k : Nat) (m' : Int), k < j → ms[k]? = some m' →
        d < (y - m').natAbs) := by
  cases ms with
  | nil => exact absurd rfl hne
  | cons m rest =>
    have hstep : scanClosest y (m :: rest) 0 none
        = scanClosest y rest 1 (some (0, (y - m).natAbs)) := by
      simp [scanClosest]
    obtain ⟨j, d, hscan, hcase⟩ := scanClosest_acc_spec y rest 1 0 ((y - m).natAbs)
    rcases hcase with ⟨hj, hd, hall⟩ | ⟨k, m', hk, hj, hd, hdlt, hstrict, hall⟩
    · refine ⟨j, d, by rw [hstep, hscan], by simp [hj],
        ⟨m, by simp [hj], hd⟩, ?_, ?_⟩
      · intro k' m'' hk'
        cases k' with
        | zero =>
          rw [List.getElem?_cons_zero] at hk'
          cases hk'
          omega
        | succ k'' =>
          rw [List.getElem?_cons_succ] at hk'
          have := hall k'' m'' hk'
          omega
      · intro k' m'' hk'lt hk'
        omega
    · have hklen : k < rest.length := (List.getElem?_eq_some_iff.mp hk).1
      refine ⟨j, d, by rw [hstep, hscan], ?_, ⟨m', ?_, hd⟩, ?_, ?_⟩
      · simp only [List.length_cons]
        omega
      · rw [hj, Nat.add_comm 1 k, List.getElem?_cons_succ]
        exact hk
      · intro k' m'' hk'
        cases k' with
        | zero =>
          rw [List.getElem?_cons_zero] at hk'
          cases hk'
          omega
        | succ k'' =>
          rw [List.getElem?_cons_succ] at hk'
          exact hall k'' m'' hk'
      · intro k' m'' hk'lt hk'
        cases k' with
        | zero =>
          rw [List.getElem?_cons_zero] at hk'
          cases hk'
          omega
        | succ k'' =>
          rw [List.getElem?_cons_succ] at hk'
          exact hstrict k'' m'' (by omega) hk'

/-- C4: over a non-empty column, the computed drag-over index is `j`
when the pointer is above the middle of the first nearest task and
`j + 1` otherwise, where `j` is the first index minimising the vertical
pointer distance; the index always lies between 0 and `n`. -/
theorem claim_C4_drag_over_nearest_index (y columnTop : Int)
    (middles : List Int) (n : Nat) (hlen : middles.length = n)
    (hn : 0 < n) :
    ∃ j m, middles[j]? = some m ∧
      (∀ (k : Nat) (m' : Int), middles[k]? = some m' →
        (y - m).natAbs ≤ (y - m').natAbs) ∧
      (∀ (k : Nat) (m' : Int), k < j → middles[k]? = some m' →
        (y - m).natAbs < (y - m').natAbs) ∧
      handleDragOverIndex y columnTop middles n
        = (if y < m then j else j + 1) ∧
      handleDragOverIndex y columnTop middles n ≤ n := by
  have hne : middles ≠ [] := by
    intro hh
    rw [hh] at hlen
    simp at hlen
    omega
  obtain ⟨j, d, hscan, hjlt, ⟨m, hm, hd⟩, hle, hstrict⟩ :=
    scanClosest_none_spec y middles hne
  have hcompute : handleDragOverIndex y columnTop middles n
      = if y < m then j else j + 1 := by
    unfold handleDragOverIndex
    rw [if_pos hn]
    simp only [hscan, hm]
  refine ⟨j, m, hm, ?_, ?_, hcompute, ?_⟩
  · intro k m' hk
    rw [← hd]
    exact hle k m' hk
  · intro k m' hklt hk
    rw [← hd]
    exact hstrict k m' hklt hk
  · rw [hcompute]
    by_cases hy : y < m
    · rw [if_pos hy]
      omega
    · rw [if_neg hy]
      omega

/-- C4 witness: three tasks with middles 100, 200, 300 and the pointer
at 180: the nearest is index 1 and the pointer sits above its middle, so
the computed index is 1 and lies within bounds. -/
theorem claim_C4_drag_over_nearest_index_witness :
    ([100, 200, 300] : List Int).length = 3 ∧ 0 < 3 ∧
    ∃ j m, ([100, 200, 300] : List Int)[j]? = some m ∧
      (∀ (k : Nat) (m' : Int), ([100, 200, 300] : List Int)[k]? = some m' →
        ((180 : Int) - m).natAbs ≤ ((180 : Int) - m').natAbs) ∧
      (∀ (k : Nat) (m' : Int), k < j →
        ([100, 200, 300] : List Int)[k]? = some m' →
        ((180 : Int) - m).natAbs < ((180 : Int) - m').natAbs) ∧
      handleDragOverIndex 180 0 [100, 200, 300] 3
        = (if (180 : Int) < m then j else j + 1) ∧
      handleDragOverIndex 180 0 [100, 200, 300] 3 ≤ 3 :=
  ⟨rfl, by decide,
    claim_C4_drag_over_nearest_index 180 0 [100, 200, 300] 3 rfl (by decide)⟩

/-- C3 counterexample: dropping task `c` on the todo column with
computed insertion index 0 does invoke the move with index 0, but after
the successful move the task is at position 2 (the end of the todo
list), not at the requested index 0. -/
theorem claim_C3_drop_index_counterexample :
    (handleDrop "c" "todo" (some 0) true cexCols).1
      = some ("c", "todo", some 0) ∧
    ((handleDrop "c" "todo" (some 0) true cexCols).2.map
      fun c => c.tasks.map fun t => t.id) = [[], ["a", "b", "c"], [], []] ∧
    (∃ col ∈ (handleDrop "c" "todo" (some 0) true cexCols).2,
      col.id = "todo" ∧ (col.tasks.map fun t => t.id)[2]? = some "c") ∧
    ¬ (∃ col ∈ (handleDrop "c" "todo" (some 0) true cexCols).2,
      col.id = "todo" ∧ (col.tasks.map fun t => t.id)[0]? = some "c") := by
  decide

/-- C3 (amended): when a drag ends with a drop on a column, the handler
invokes the move operation with the dragged task's id, the target
column's status, and the insertion index computed from the pointer
position; the move operation ignores the index, so after a successful
move the task is appended at the end of the target column's ordered task
list rather than placed at the insertion index. -/
theorem claim_C3_drop_invokes_move_appends (taskId colId : String)
    (idx : Option Nat) (cols : List KanbanColumn) (hid : taskId ≠ "") :
    (handleDrop taskId colId idx true cols).1 = some (taskId, colId, idx) ∧
    (handleDrop taskId colId idx true cols).2
      = updateTaskStatusLocal taskId colId cols ∧
    ∀ t, ((cols.flatMap fun c => c.tasks).find? fun u => u.id == taskId)
        = some t →
      ∀ c ∈ (handleDrop taskId colId idx true cols).2, c.id = colId →
        c.tasks.getLast? = some { t with status := colId } := by
  have hbeq : (taskId == "") = false := by simpa using hid
  have h2 : (handleDrop taskId colId idx true cols).2
      = updateTaskStatusLocal taskId colId cols := by
    simp [handleDrop, hbeq, moveTaskCalledWithIndex, moveTask,
      updateTaskStatus]
  refine ⟨by simp [handleDrop, hbeq], h2, ?_⟩
  intro t ht c hc hcs
  rw [h2] at hc
  exact updateTaskStatusLocal_target_getLast taskId colId cols t ht c hc hcs

/-- C3 witness: the amended behaviour on the concrete board. -/
theorem claim_C3_drop_invokes_move_appends_witness :
    (handleDrop "c" "todo" (some 0) true cexCols).1
      = some ("c", "todo", some 0) ∧
    ∀ c ∈ (handleDrop "c" "todo" (some 0) true cexCols).2, c.id = "todo" →
      c.tasks.getLast? = some { mkTask "c" "backlog" with status := "todo" } :=
  ⟨(claim_C3_drop_invokes_move_appends "c" "todo" (some 0) cexCols
      (by decide)).1,
    (claim_C3_drop_invokes_move_appends "c" "todo" (some 0) cexCols
      (by decide)).2.2 (mkTask "c" "backlog") (by decide)⟩

end Kanban
